import Mathlib

/-!
A shallow embedding of the torrent-export state-synchronization engine
(`src/base/export/torrentexporter.h`).  The header declares the data model
(the `TorrentStatus` enumeration, the commit-interval constants, the inline
`deferCommitTimerTimeout`) directly; the bodies of the remaining operations
are not part of the source tree, so they are modelled from the specification
(each such definition carries a `Modelled from the spec:` doc comment).
-/

namespace Export

/-- The `Export::TorrentStatus` enumeration from the header.
C++ values start at 1 (MySQL enums start from 1) and are consecutive. -/
inductive TorrentStatus where
  | Allocating
  | Checking
  | CheckingResumeData
  | Downloading
  | Error
  | Finished
  | ForcedDownloading
  | MissingFiles
  | Moving
  | Paused
  | Queued
  | Stalled
  | Unknown
deriving DecidableEq, Repr

/-- The integer value each enumerator is stored as: `Allocating = 1` and the
rest follow consecutively, exactly as the C++ `enum struct` assigns them. -/
def TorrentStatus.toInt : TorrentStatus → Nat
  | .Allocating => 1
  | .Checking => 2
  | .CheckingResumeData => 3
  | .Downloading => 4
  | .Error => 5
  | .Finished => 6
  | .ForcedDownloading => 7
  | .MissingFiles => 8
  | .Moving => 9
  | .Paused => 10
  | .Queued => 11
  | .Stalled => 12
  | .Unknown => 13

/-- All thirteen enumerators in declaration order. -/
def allStatuses : List TorrentStatus :=
  [.Allocating, .Checking, .CheckingResumeData, .Downloading, .Error, .Finished,
   .ForcedDownloading, .MissingFiles, .Moving, .Paused, .Queued, .Stalled, .Unknown]

/-- `COMMIT_INTERVAL_BASE = 1000` (header line 87). -/
def COMMIT_INTERVAL_BASE : Nat := 1000

/-- `COMMIT_INTERVAL_MAX = 5000` (header line 89). -/
def COMMIT_INTERVAL_MAX : Nat := 5000

/-- The inline body of `TorrentExporter::deferCommitTimerTimeout` (header
lines 100–104): restart the commit timer with
`min(interval * 2, COMMIT_INTERVAL_MAX)`.  The function maps the timer's
current interval to the interval it is restarted with. -/
def deferCommitTimerTimeout (interval : Nat) : Nat :=
  min (interval * 2) COMMIT_INTERVAL_MAX

/-- Modelled from the spec: the body of
`TorrentExporter::commitTorrentsTimerTimeout` is not in the source tree; the
spec says "On any successful commit attempt, interval resets to base".  The
interval after a successful commit attempt. -/
def intervalAfterSuccess : Nat := COMMIT_INTERVAL_BASE

/-- The timer interval after `n` consecutive failed commit attempts, starting
from the base interval: each failure applies `deferCommitTimerTimeout`. -/
def intervalAfterFailures : Nat → Nat
  | 0 => COMMIT_INTERVAL_BASE
  | n + 1 => deferCommitTimerTimeout (intervalAfterFailures n)

/-- A `torrents` row in the store.  `id` is the store-assigned surrogate key
(`TorrentExporter::TorrentId`), `hash` the immutable fingerprint
(`BitTorrent::InfoHash`, modelled as a natural number). -/
structure TorrentRow where
  id : Nat
  hash : Nat
  status : TorrentStatus
  name : String
  savePath : String
  seeds : Nat
  totalSeeds : Nat
  leechers : Nat
  totalLeechers : Nat
deriving DecidableEq, Repr

/-- A previewable-file row (`JobFile`), keyed by the parent torrent's
surrogate key and an ordinal file index. -/
structure FileRow where
  torrentId : Nat
  fileIndex : Nat
  priority : Int
  progress : Nat
  availability : Int
deriving DecidableEq, Repr

/-- The relational store: torrent rows, file rows, and the next surrogate key
the store will assign (auto-increment). -/
structure Db where
  torrents : List TorrentRow
  files : List FileRow
  nextId : Nat
deriving DecidableEq, Repr

/-- Per-file data carried by an in-memory torrent handle. -/
structure FileData where
  fileIndex : Nat
  priority : Int
  progress : Nat
  availability : Int
deriving DecidableEq, Repr

/-- The in-memory `BitTorrent::TorrentHandle` data the exporter reads:
fingerprint plus the mutable fields that get persisted. -/
structure Handle where
  hash : Nat
  status : TorrentStatus
  name : String
  savePath : String
  seeds : Nat
  totalSeeds : Nat
  leechers : Nat
  totalLeechers : Nat
  files : List FileData
deriving DecidableEq, Repr

/-- Modelled from the spec: the body of
`TorrentExporter::selectTorrentIdsToCommitByHashes` is not in the source
tree; the spec's store interface has
`existsByFingerprint(fingerprints[]) -> fingerprint→id`.  Look up the
surrogate key of the row carrying a fingerprint. -/
def Db.findIdByHash (db : Db) (h : Nat) : Option Nat :=
  (db.torrents.find? (fun r => r.hash == h)).map (fun r => r.id)

/-- Modelled from the spec: the body of `TorrentExporter::insertTorrentsToDb`
is not in the source tree; the spec's store interface has
`insertBatch(jobs[]) -> fingerprint→id` with store-assigned surrogate keys.
Insert one torrent row, the store assigning `nextId` as its key. -/
def Db.insertTorrent (db : Db) (t : Handle) : Db :=
  { db with
    torrents := db.torrents ++
      [{ id := db.nextId, hash := t.hash, status := t.status, name := t.name,
         savePath := t.savePath, seeds := t.seeds, totalSeeds := t.totalSeeds,
         leechers := t.leechers, totalLeechers := t.totalLeechers }],
    nextId := db.nextId + 1 }

/-- Modelled from the spec: the body of
`TorrentExporter::insertPreviewableFilesToDb` is not in the source tree; the
spec has `insertFiles(parentId, files[])` using the re-resolved surrogate key
as foreign key.  Insert the handle's file rows under its resolved key; a
handle whose fingerprint resolves to no key contributes nothing. -/
def Db.insertFilesFor (db : Db) (t : Handle) : Db :=
  match db.findIdByHash t.hash with
  | none => db
  | some tid =>
      { db with
        files := db.files ++ t.files.map (fun f =>
          { torrentId := tid, fileIndex := f.fileIndex, priority := f.priority,
            progress := f.progress, availability := f.availability }) }

/-- Modelled from the spec: the body of
`TorrentExporter::removeTorrentFromDb` is not in the source tree; the spec
has `deleteByFingerprint(fingerprint)` issuing a cascading delete keyed by
fingerprint.  Delete every torrent row carrying the fingerprint and,
cascading, every file row whose foreign key is one of those rows' keys. -/
def Db.deleteByHash (db : Db) (h : Nat) : Db :=
  let victims := db.torrents.filter (fun r => r.hash == h)
  { db with
    torrents := db.torrents.filter (fun r => !(r.hash == h)),
    files := db.files.filter (fun f => !(victims.any (fun v => v.id == f.torrentId))) }

/-- Modelled from the spec: the bodies of
`TorrentExporter::removeExistingTorrents` ("Remove already existing torrents
in DB from commit hash", header line 97) and the insert steps are not in the
source tree.  One commit cycle over a drained pending set: drop the handles
whose fingerprint already has a row, insert the rest as a batch, then insert
their file rows under the re-resolved surrogate keys. -/
def commitCycle (db : Db) (pending : List Handle) : Db :=
  let toInsert := pending.filter (fun t => !(db.torrents.any (fun r => r.hash == t.hash)))
  let db1 := toInsert.foldl Db.insertTorrent db
  toInsert.foldl Db.insertFilesFor db1

/-- The exporter's mutable state: the store plus the pending registry
(`m_torrentsToCommit`, a hash keyed by fingerprint). -/
structure ExporterState where
  db : Db
  registry : List Handle
deriving DecidableEq, Repr

/-- The exporter before any notification: empty store (first surrogate key
1), empty registry. -/
def initialState : ExporterState :=
  { db := { torrents := [], files := [], nextId := 1 }, registry := [] }

/-- Lifecycle notifications and timer firings driving the exporter. -/
inductive Event where
  | added (t : Handle)
  | removed (h : Nat)
  | commit (storeAvailable : Bool)
deriving DecidableEq, Repr

/-- Modelled from the spec: the body of
`TorrentExporter::handleTorrentAdded` is not in the source tree; the
registry is a `QHash` keyed by `InfoHash`, so an "added" notification for a
fingerprint already pending replaces that entry and never duplicates the
key. -/
def registryAdd (reg : List Handle) (t : Handle) : List Handle :=
  if reg.any (fun u => u.hash == t.hash) then
    reg.map (fun u => if u.hash == t.hash then t else u)
  else reg ++ [t]

/-- Modelled from the spec: the bodies of the slot handlers and
`commitTorrentsTimerTimeout` are not in the source tree.  One step of the
exporter: an "added" notification enqueues into the registry; a "removed"
notification evicts the fingerprint from the registry and issues the
cascading delete keyed by fingerprint; a commit attempt against an available
store runs the commit cycle and clears the successfully processed
fingerprints from the registry, while a commit attempt against an
unavailable store aborts the cycle's steps and leaves every pending
fingerprint in the registry. -/
def step (s : ExporterState) : Event → ExporterState
  | .added t => { s with registry := registryAdd s.registry t }
  | .removed h =>
      { db := s.db.deleteByHash h,
        registry := s.registry.filter (fun t => !(t.hash == h)) }
  | .commit true => { db := commitCycle s.db s.registry, registry := [] }
  | .commit false => s

/-- The exporter state after a sequence of events from startup. -/
def run (events : List Event) : ExporterState :=
  events.foldl step initialState

/-- Modelled from the spec: the body of
`TorrentExporter::updateTorrentSaveDirInDb` is not in the source tree; its
header signature (line 126) keys the update by `TorrentId` and the spec says
it updates only the save-location field.  Set `savePath` on the row whose
surrogate key matches. -/
def updateTorrentSaveDirInDb (db : Db) (torrentId : Nat) (newPath : String) : Db :=
  { db with
    torrents := db.torrents.map (fun r =>
      if r.id == torrentId then { r with savePath := newPath } else r) }

/-- Modelled from the spec: the body of
`TorrentExporter::handleTorrentStorageMoveFinished` is not in the source
tree; a "moved" notification resolves the torrent's surrogate key from its
fingerprint and updates the save location under that key; a fingerprint with
no row (a Pending job) resolves to nothing and no update is issued. -/
def handleTorrentStorageMoveFinished (db : Db) (h : Nat) (newPath : String) : Db :=
  match db.findIdByHash h with
  | none => db
  | some tid => updateTorrentSaveDirInDb db tid newPath

/-- The fingerprints of the rows held in the store. -/
def dbHashes (db : Db) : List Nat :=
  db.torrents.map (fun r => r.hash)

/-- The fingerprints held in the pending registry. -/
def regHashes (reg : List Handle) : List Nat :=
  reg.map (fun t => t.hash)

/-- The exporter invariant: the store never holds two rows with the same
fingerprint and the registry never holds two handles with the same
fingerprint. -/
def Inv (s : ExporterState) : Prop :=
  (dbHashes s.db).Nodup ∧ (regHashes s.registry).Nodup

/-- The transient statuses of the spec: Allocating, Checking,
CheckingResumeData, Downloading, ForcedDownloading, Moving, Queued. -/
def TorrentStatus.isTransient : TorrentStatus → Bool
  | .Allocating => true
  | .Checking => true
  | .CheckingResumeData => true
  | .Downloading => true
  | .ForcedDownloading => true
  | .Moving => true
  | .Queued => true
  | _ => false

/-- Modelled from the spec: the bodies of
`TorrentExporter::correctTorrentStatusesOnExit` and
`TorrentExporter::correctTorrentPeersOnExit` are not in the source tree; the
spec forces every transient-status row to the stable equivalent and zeroes
seeds, total_seeds, leechers and total_leechers.  The stable equivalent is
modelled as `Paused` (a stable, terminal-safe status). -/
def correctOnExit (db : Db) : Db :=
  { db with
    torrents := db.torrents.map (fun r =>
      { r with
        status := if r.status.isTransient then TorrentStatus.Paused else r.status,
        seeds := 0, totalSeeds := 0, leechers := 0, totalLeechers := 0 }) }

/-- The persisted fields of a torrent compared by the change detector. -/
inductive TorrentField where
  | name
  | status
  | savePath
  | seeds
  | totalSeeds
  | leechers
  | totalLeechers
deriving DecidableEq, Repr

/-- The persisted fields of a torrent file compared by the change
detector. -/
inductive TorrentFileField where
  | priority
  | progress
  | availability
deriving DecidableEq, Repr

/-- The field values of a torrent as read from a handle or as recorded in the
last persisted snapshot. -/
structure TorrentFields where
  name : String
  status : TorrentStatus
  savePath : String
  seeds : Nat
  totalSeeds : Nat
  leechers : Nat
  totalLeechers : Nat
deriving DecidableEq, Repr

/-- The field values of a torrent file. -/
structure TorrentFileFields where
  priority : Int
  progress : Nat
  availability : Int
deriving DecidableEq, Repr

/-- Modelled from the spec: the body of
`TorrentExporter::traceTorrentChangedProperties` is not in the source tree;
the change detector produces a change-set containing only the fields whose
current value differs from the snapshot by strict inequality (status
compared by enumerated value, no tolerance on numeric fields). -/
def traceTorrentChangedProperties (cur snap : TorrentFields) : List TorrentField :=
  (if cur.name ≠ snap.name then [TorrentField.name] else []) ++
  (if cur.status ≠ snap.status then [TorrentField.status] else []) ++
  (if cur.savePath ≠ snap.savePath then [TorrentField.savePath] else []) ++
  (if cur.seeds ≠ snap.seeds then [TorrentField.seeds] else []) ++
  (if cur.totalSeeds ≠ snap.totalSeeds then [TorrentField.totalSeeds] else []) ++
  (if cur.leechers ≠ snap.leechers then [TorrentField.leechers] else []) ++
  (if cur.totalLeechers ≠ snap.totalLeechers then [TorrentField.totalLeechers] else [])

/-- Modelled from the spec: the body of
`TorrentExporter::traceTorrentFilesChangedProperties` is not in the source
tree; same strict-inequality comparison per file field. -/
def traceTorrentFilesChangedProperties (cur snap : TorrentFileFields) :
    List TorrentFileField :=
  (if cur.priority ≠ snap.priority then [TorrentFileField.priority] else []) ++
  (if cur.progress ≠ snap.progress then [TorrentFileField.progress] else []) ++
  (if cur.availability ≠ snap.availability then [TorrentFileField.availability] else [])

/-- Modelled from the spec: the body of `TorrentExporter::updateTorrentInDb`
is not in the source tree; an update statement is issued only if the
change-set is non-empty.  Number of update statements the sync engine issues
for one torrent. -/
def torrentUpdateStatements (cur snap : TorrentFields) : Nat :=
  if traceTorrentChangedProperties cur snap = [] then 0 else 1

/-- Modelled from the spec: the body of
`TorrentExporter::updatePreviewableFilesInDb` is not in the source tree; an
update statement is issued only if the file's change-set is non-empty. -/
def fileUpdateStatements (cur snap : TorrentFileFields) : Nat :=
  if traceTorrentFilesChangedProperties cur snap = [] then 0 else 1

/-- The latched booleans `m_dbDisconnectedShowed` and `m_dbConnectedShowed`
of the health monitor (header lines 85–86). -/
structure HealthFlags where
  dbDisconnectedShowed : Bool
  dbConnectedShowed : Bool
deriving DecidableEq, Repr

/-- A connection-state transition event surfaced to the external observer. -/
inductive HealthEvent where
  | connected
  | disconnected
deriving DecidableEq, Repr

/-- The statics start out with nothing shown. -/
def initFlags : HealthFlags :=
  { dbDisconnectedShowed := false, dbConnectedShowed := false }

/-- Modelled from the spec: the body of `TorrentExporter::pingDatabase` is
not in the source tree; the two latched booleans make each transition
surfaced exactly once per state change and never while the state is stable.
One probe: on a failed probe the disconnected warning is shown only if it has
not been shown for the current outage; on a successful probe the reconnected
notice is shown only if a disconnected warning is outstanding. -/
def pingDatabase (f : HealthFlags) (ok : Bool) : HealthFlags × Option HealthEvent :=
  if ok then
    if f.dbDisconnectedShowed && !f.dbConnectedShowed then
      ({ dbDisconnectedShowed := false, dbConnectedShowed := true },
       some HealthEvent.connected)
    else (f, none)
  else
    if !f.dbDisconnectedShowed then
      ({ dbDisconnectedShowed := true, dbConnectedShowed := false },
       some HealthEvent.disconnected)
    else (f, none)

/-- The events emitted over a sequence of probe results. -/
def pingTrace : HealthFlags → List Bool → List HealthEvent
  | _, [] => []
  | f, ok :: rest =>
      ((pingDatabase f ok).2).toList ++ pingTrace (pingDatabase f ok).1 rest

/-- The transition event corresponding to a probe result. -/
def eventOf : Bool → HealthEvent
  | true => HealthEvent.connected
  | false => HealthEvent.disconnected

/-- Reference edge detector: an event exactly when a probe result differs
from the previous effective state (initially connected: startup shows no
notice while the store answers). -/
def edgeEvents : Bool → List Bool → List HealthEvent
  | _, [] => []
  | prev, r :: rest => (if r = prev then [] else [eventOf r]) ++ edgeEvents r rest

end Export

namespace Export

/-- Doubling under a cap: one deferral step turns `min (b * 2^n) M` into
`min (b * 2^(n+1)) M`. -/
theorem min_double_cap (a M : Nat) : min (min a M * 2) M = min (a * 2) M := by
  rcases Nat.le_total a M with h | h
  · rw [Nat.min_eq_left h]
  · rw [Nat.min_eq_right h, Nat.min_eq_right (by omega), Nat.min_eq_right (by omega)]

/-- C1: after `N` consecutive failed commit attempts the scheduler interval is
`min (COMMIT_INTERVAL_BASE * 2^N) COMMIT_INTERVAL_MAX`, and one successful
commit attempt resets the interval to `COMMIT_INTERVAL_BASE`. -/
theorem commit_backoff_interval (N : Nat) :
    intervalAfterFailures N = min (COMMIT_INTERVAL_BASE * 2 ^ N) COMMIT_INTERVAL_MAX ∧
    intervalAfterSuccess = COMMIT_INTERVAL_BASE := by
  refine ⟨?_, rfl⟩
  induction N with
  | zero => decide
  | succ n ih =>
      rw [intervalAfterFailures, ih, deferCommitTimerTimeout, min_double_cap,
        Nat.pow_succ]
      ring_nf

/-- C9: the status enumeration is total (every status is listed), maps the
thirteen statuses in declaration order to the consecutive integers 1..13, and
the mapping is injective (the listed values repeat nowhere). -/
theorem status_enumeration_consecutive :
    (∀ s : TorrentStatus, s ∈ allStatuses) ∧
    allStatuses.map TorrentStatus.toInt = [1, 2, 3, 4, 5, 6, 7, 8, 9, 10, 11, 12, 13] ∧
    (allStatuses.map TorrentStatus.toInt).Nodup := by
  refine ⟨fun s => ?_, by decide, by decide⟩
  cases s <;> decide

/-- C5: after the exit-time correction no row has a transient status and
every row's seed/peer counters are zero; the correction keeps every row
(same number of rows) and is idempotent: running it a second time leaves the
store unchanged. -/
theorem exit_correction_stable_and_idempotent (db : Db) :
    ((correctOnExit db).torrents.all (fun r =>
        !r.status.isTransient && (r.seeds == 0) && (r.totalSeeds == 0) &&
        (r.leechers == 0) && (r.totalLeechers == 0))) = true ∧
    (correctOnExit db).torrents.length = db.torrents.length ∧
    correctOnExit (correctOnExit db) = correctOnExit db := by
  refine ⟨?_, by simp [correctOnExit], ?_⟩
  · simp only [correctOnExit, List.all_map, List.all_eq_true, Function.comp]
    intro r _
    cases h : r.status <;> simp [TorrentStatus.isTransient, h]
  · simp only [correctOnExit, List.map_map]
    refine congrArg (fun l => Db.mk l db.files db.nextId) (List.map_congr_left ?_)
    intro r _
    cases h : r.status <;>
      simp [Function.comp, TorrentStatus.isTransient, h]

/-- C6: a torrent (and a torrent file) whose current field values all equal
the last persisted snapshot produces an empty change-set and zero update
statements, and each field enters the change-set exactly when its value
differs by strict inequality. -/
theorem change_detector_strict_inequality (cur snap : TorrentFields)
    (fc fs : TorrentFileFields) (hc : cur = snap) (hf : fc = fs) :
    (traceTorrentChangedProperties cur snap = [] ∧
     torrentUpdateStatements cur snap = 0 ∧
     traceTorrentFilesChangedProperties fc fs = [] ∧
     fileUpdateStatements fc fs = 0) ∧
    (∀ c s : TorrentFields,
      (TorrentField.name ∈ traceTorrentChangedProperties c s ↔ c.name ≠ s.name) ∧
      (TorrentField.status ∈ traceTorrentChangedProperties c s ↔ c.status ≠ s.status) ∧
      (TorrentField.savePath ∈ traceTorrentChangedProperties c s ↔ c.savePath ≠ s.savePath) ∧
      (TorrentField.seeds ∈ traceTorrentChangedProperties c s ↔ c.seeds ≠ s.seeds) ∧
      (TorrentField.totalSeeds ∈ traceTorrentChangedProperties c s ↔
        c.totalSeeds ≠ s.totalSeeds) ∧
      (TorrentField.leechers ∈ traceTorrentChangedProperties c s ↔
        c.leechers ≠ s.leechers) ∧
      (TorrentField.totalLeechers ∈ traceTorrentChangedProperties c s ↔
        c.totalLeechers ≠ s.totalLeechers)) ∧
    (∀ c s : TorrentFileFields,
      (TorrentFileField.priority ∈ traceTorrentFilesChangedProperties c s ↔
        c.priority ≠ s.priority) ∧
      (TorrentFileField.progress ∈ traceTorrentFilesChangedProperties c s ↔
        c.progress ≠ s.progress) ∧
      (TorrentFileField.availability ∈ traceTorrentFilesChangedProperties c s ↔
        c.availability ≠ s.availability)) := by
  subst hc hf
  refine ⟨⟨?_, ?_, ?_, ?_⟩, fun c s => ?_, fun c s => ?_⟩
  · simp [traceTorrentChangedProperties]
  · simp [torrentUpdateStatements, traceTorrentChangedProperties]
  · simp [traceTorrentFilesChangedProperties]
  · simp [fileUpdateStatements, traceTorrentFilesChangedProperties]
  · refine ⟨?_, ?_, ?_, ?_, ?_, ?_, ?_⟩ <;>
      simp [traceTorrentChangedProperties, List.mem_append]
  · refine ⟨?_, ?_, ?_⟩ <;>
      simp [traceTorrentFilesChangedProperties, List.mem_append]

/-- Witness for C6 at concrete field values. -/
theorem change_detector_strict_inequality_witness :
    traceTorrentChangedProperties
        ⟨"a", TorrentStatus.Paused, "/d", 1, 2, 3, 4⟩
        ⟨"a", TorrentStatus.Paused, "/d", 1, 2, 3, 4⟩ = [] ∧
    torrentUpdateStatements
        ⟨"a", TorrentStatus.Paused, "/d", 1, 2, 3, 4⟩
        ⟨"a", TorrentStatus.Paused, "/d", 1, 2, 3, 4⟩ = 0 ∧
    traceTorrentFilesChangedProperties ⟨1, 2, 3⟩ ⟨1, 2, 3⟩ = [] ∧
    fileUpdateStatements ⟨1, 2, 3⟩ ⟨1, 2, 3⟩ = 0 :=
  ⟨((change_detector_strict_inequality
      ⟨"a", TorrentStatus.Paused, "/d", 1, 2, 3, 4⟩
      ⟨"a", TorrentStatus.Paused, "/d", 1, 2, 3, 4⟩
      ⟨1, 2, 3⟩ ⟨1, 2, 3⟩ rfl rfl).1).1,
   ((change_detector_strict_inequality
      ⟨"a", TorrentStatus.Paused, "/d", 1, 2, 3, 4⟩
      ⟨"a", TorrentStatus.Paused, "/d", 1, 2, 3, 4⟩
      ⟨1, 2, 3⟩ ⟨1, 2, 3⟩ rfl rfl).1).2⟩

/-- C8: a relocation update touches nothing but the targeted row's save
location: file rows are untouched, no torrent row appears or disappears, and
at every position the row keeps its id, hash, status, name and all counters,
its save location changing exactly when its surrogate key is the targeted
one. -/
theorem relocation_updates_only_save_location (db : Db) (tid : Nat)
    (p : String) (k : Nat) (hk : k < db.torrents.length) :
    (updateTorrentSaveDirInDb db tid p).files = db.files ∧
    (updateTorrentSaveDirInDb db tid p).torrents.length = db.torrents.length ∧
    ∀ hk2 : k < (updateTorrentSaveDirInDb db tid p).torrents.length,
      ((updateTorrentSaveDirInDb db tid p).torrents.get ⟨k, hk2⟩).id =
        (db.torrents.get ⟨k, hk⟩).id ∧
      ((updateTorrentSaveDirInDb db tid p).torrents.get ⟨k, hk2⟩).hash =
        (db.torrents.get ⟨k, hk⟩).hash ∧
      ((updateTorrentSaveDirInDb db tid p).torrents.get ⟨k, hk2⟩).status =
        (db.torrents.get ⟨k, hk⟩).status ∧
      ((updateTorrentSaveDirInDb db tid p).torrents.get ⟨k, hk2⟩).name =
        (db.torrents.get ⟨k, hk⟩).name ∧
      ((updateTorrentSaveDirInDb db tid p).torrents.get ⟨k, hk2⟩).seeds =
        (db.torrents.get ⟨k, hk⟩).seeds ∧
      ((updateTorrentSaveDirInDb db tid p).torrents.get ⟨k, hk2⟩).totalSeeds =
        (db.torrents.get ⟨k, hk⟩).totalSeeds ∧
      ((updateTorrentSaveDirInDb db tid p).torrents.get ⟨k, hk2⟩).leechers =
        (db.torrents.get ⟨k, hk⟩).leechers ∧
      ((updateTorrentSaveDirInDb db tid p).torrents.get ⟨k, hk2⟩).totalLeechers =
        (db.torrents.get ⟨k, hk⟩).totalLeechers ∧
      ((updateTorrentSaveDirInDb db tid p).torrents.get ⟨k, hk2⟩).savePath =
        (if (db.torrents.get ⟨k, hk⟩).id = tid then p
         else (db.torrents.get ⟨k, hk⟩).savePath) := by
  refine ⟨rfl, by simp [updateTorrentSaveDirInDb], ?_⟩
  intro hk2
  simp only [updateTorrentSaveDirInDb, List.get_eq_getElem, List.getElem_map]
  by_cases h : db.torrents[k].id = tid <;>
    simp [h]

/-- Witness for C8 at a one-row store. -/
theorem relocation_updates_only_save_location_witness :
    (updateTorrentSaveDirInDb
        ⟨[⟨5, 9, TorrentStatus.Downloading, "n", "/old", 1, 2, 3, 4⟩], [], 6⟩
        5 "/new").files = [] ∧
    ((updateTorrentSaveDirInDb
        ⟨[⟨5, 9, TorrentStatus.Downloading, "n", "/old", 1, 2, 3, 4⟩], [], 6⟩
        5 "/new").torrents.get ⟨0, by decide⟩).savePath = "/new" := by
  have h := relocation_updates_only_save_location
    ⟨[⟨5, 9, TorrentStatus.Downloading, "n", "/old", 1, 2, 3, 4⟩], [], 6⟩
    5 "/new" 0 (by decide)
  refine ⟨h.1, ?_⟩
  have h2 := (h.2.2 (by decide)).2.2.2.2.2.2.2.2
  simpa using h2

/-- C10: the relocation update is keyed by the surrogate key, so a "moved"
notification for a fingerprint with no row in the store (a Pending job,
never successfully inserted) persists nothing: the store is unchanged. -/
theorem relocation_needs_surrogate_key (db : Db) (h : Nat) (p : String)
    (hpending : db.findIdByHash h = none) :
    handleTorrentStorageMoveFinished db h p = db := by
  simp [handleTorrentStorageMoveFinished, hpending]

/-- Witness for C10: a store holding only a row for fingerprint 9 has no
surrogate key for fingerprint 7, so relocating fingerprint 7 changes
nothing. -/
theorem relocation_needs_surrogate_key_witness :
    (⟨[⟨5, 9, TorrentStatus.Downloading, "n", "/old", 1, 2, 3, 4⟩], [], 6⟩ :
        Db).findIdByHash 7 = none ∧
    handleTorrentStorageMoveFinished
        ⟨[⟨5, 9, TorrentStatus.Downloading, "n", "/old", 1, 2, 3, 4⟩], [], 6⟩
        7 "/new" =
      ⟨[⟨5, 9, TorrentStatus.Downloading, "n", "/old", 1, 2, 3, 4⟩], [], 6⟩ :=
  ⟨by decide,
   relocation_needs_surrogate_key
     ⟨[⟨5, 9, TorrentStatus.Downloading, "n", "/old", 1, 2, 3, 4⟩], [], 6⟩
     7 "/new" (by decide)⟩

/-- C4: a "removed" notification, in any exporter state (a Pending job with
no row included), leaves no torrent row and no registry entry carrying the
fingerprint, cascades to every file row whose foreign key is one of the
deleted rows' surrogate keys, and — the delete being keyed by fingerprint,
not surrogate key — keeps every torrent row with a different fingerprint and
every file row not belonging to a deleted row. -/
theorem removed_deletes_by_fingerprint (s : ExporterState) (h : Nat) :
    ((step s (Event.removed h)).db.torrents.countP (fun r => r.hash == h)) = 0 ∧
    ((step s (Event.removed h)).registry.countP (fun t => t.hash == h)) = 0 ∧
    ((step s (Event.removed h)).db.files.countP (fun f =>
        (s.db.torrents.filter (fun r => r.hash == h)).any
          (fun v => v.id == f.torrentId))) = 0 ∧
    ((step s (Event.removed h)).db.torrents.countP (fun r => !(r.hash == h)))
        = s.db.torrents.countP (fun r => !(r.hash == h)) ∧
    ((step s (Event.removed h)).db.files.countP (fun f =>
        !((s.db.torrents.filter (fun r => r.hash == h)).any
          (fun v => v.id == f.torrentId))))
        = s.db.files.countP (fun f =>
        !((s.db.torrents.filter (fun r => r.hash == h)).any
          (fun v => v.id == f.torrentId))) := by
  simp [step, Db.deleteByHash, List.countP_filter, Bool.and_comm]

/-- Batched insertion appends exactly the inserted handles' fingerprints. -/
theorem foldl_insertTorrent_hashes (l : List Handle) (db : Db) :
    dbHashes (l.foldl Db.insertTorrent db) = dbHashes db ++ l.map (fun t => t.hash) := by
  induction l generalizing db with
  | nil => simp
  | cons t l ih =>
      rw [List.foldl_cons, ih]
      simp [dbHashes, Db.insertTorrent]

/-- Inserting file rows never touches the torrent rows. -/
theorem foldl_insertFilesFor_torrents (l : List Handle) (db : Db) :
    (l.foldl Db.insertFilesFor db).torrents = db.torrents := by
  induction l generalizing db with
  | nil => rfl
  | cons t l ih =>
      rw [List.foldl_cons, ih]
      cases hfind : db.findIdByHash t.hash <;> simp [Db.insertFilesFor, hfind]

/-- A commit cycle appends to the store exactly the fingerprints of the
pending handles that had no row yet. -/
theorem commitCycle_hashes (db : Db) (reg : List Handle) :
    dbHashes (commitCycle db reg) =
      dbHashes db ++
        (reg.filter (fun t => !(db.torrents.any (fun r => r.hash == t.hash)))).map
          (fun t => t.hash) := by
  unfold commitCycle
  rw [dbHashes, foldl_insertFilesFor_torrents, ← dbHashes, foldl_insertTorrent_hashes]

/-- The registry is a hash keyed by fingerprint: adding replaces or appends,
and never duplicates a fingerprint. -/
theorem registryAdd_hashes_nodup (reg : List Handle) (t : Handle)
    (hn : (regHashes reg).Nodup) : (regHashes (registryAdd reg t)).Nodup := by
  unfold registryAdd
  by_cases hany : reg.any (fun u => u.hash == t.hash)
  · rw [if_pos hany]
    have heq : regHashes (reg.map (fun u => if u.hash == t.hash then t else u))
        = regHashes reg := by
      simp only [regHashes, List.map_map]
      refine List.map_congr_left ?_
      intro u _
      by_cases hu : u.hash == t.hash
      · simp only [Function.comp, if_pos hu]
        exact (eq_of_beq hu).symm
      · simp [Function.comp, hu]
    rw [heq]; exact hn
  · rw [if_neg hany]
    have hmem : t.hash ∉ regHashes reg := by
      intro hx
      apply hany
      simp only [regHashes, List.mem_map] at hx
      obtain ⟨u, hu, hux⟩ := hx
      exact List.any_eq_true.mpr ⟨u, hu, by simp [hux]⟩
    simp only [regHashes, List.map_append, List.map_cons, List.map_nil]
    rw [List.nodup_append]
    refine ⟨hn, List.nodup_singleton _, ?_⟩
    intro x hx hx2
    simp only [List.mem_singleton] at hx2
    subst hx2
    exact hmem hx

/-- Every exporter step preserves the no-duplicate-fingerprint invariant. -/
theorem step_preserves_Inv (s : ExporterState) (e : Event) (hs : Inv s) :
    Inv (step s e) := by
  obtain ⟨hdb, hreg⟩ := hs
  unfold Inv
  cases e with
  | added t => exact ⟨hdb, registryAdd_hashes_nodup s.registry t hreg⟩
  | removed h =>
      refine ⟨?_, ?_⟩
      · have hsub : List.Sublist (dbHashes ((step s (Event.removed h)).db))
            (dbHashes s.db) := by
          simp only [step, Db.deleteByHash, dbHashes]
          exact (List.filter_sublist _).map _
        exact hsub.nodup hdb
      · have hsub : List.Sublist (regHashes ((step s (Event.removed h)).registry))
            (regHashes s.registry) := by
          simp only [step, regHashes]
          exact (List.filter_sublist _).map _
        exact hsub.nodup hreg
  | commit avail =>
      cases avail with
      | false => exact ⟨hdb, hreg⟩
      | true =>
          simp only [step]
          refine ⟨?_, by simp [regHashes]⟩
          rw [commitCycle_hashes, List.nodup_append]
          have hsub : (List.map (fun t => t.hash) (s.registry.filter
              (fun t => !(s.db.torrents.any (fun r => r.hash == t.hash))))).Nodup := by
            have hs2 : List.Sublist ((s.registry.filter
                (fun t => !(s.db.torrents.any (fun r => r.hash == t.hash)))).map
                  (fun t => t.hash)) (regHashes s.registry) := by
              simp only [regHashes]
              exact (List.filter_sublist _).map _
            exact hs2.nodup hreg
          refine ⟨hdb, hsub, ?_⟩
          intro x hx hx2
          simp only [List.mem_map, List.mem_filter] at hx2
          obtain ⟨t, ⟨htmem, ht⟩, rfl⟩ := hx2
          rw [Bool.not_eq_true', List.any_eq_false] at ht
          simp only [dbHashes, List.mem_map] at hx
          obtain ⟨r, hr, hrx⟩ := hx
          exact absurd hrx (by simpa using ht r hr)

/-- The invariant holds after any event sequence from startup. -/
theorem run_Inv (events : List Event) : Inv (run events) := by
  have hfold : ∀ (l : List Event) (s : ExporterState), Inv s → Inv (l.foldl step s) := by
    intro l
    induction l with
    | nil => intro s hs; exact hs
    | cons e l ih => intro s hs; exact ih _ (step_preserves_Inv s e hs)
  exact hfold events initialState ⟨List.nodup_nil, List.nodup_nil⟩

/-- An `Option.map` is a key exactly when the search succeeds. -/
theorem find_isSome_eq_any (l : List TorrentRow) (p : TorrentRow → Bool) :
    (l.find? p).isSome = l.any p := by
  induction l with
  | nil => rfl
  | cons r l ih =>
      cases hp : p r <;> simp [List.find?_cons, hp, ih]

/-- A duplicate-free list holds a value at most once. -/
theorem nodup_countP_le_one (l : List Nat) (hn : l.Nodup) (h : Nat) :
    l.countP (fun x => x == h) ≤ 1 := by
  induction l with
  | nil => simp
  | cons a l ih =>
      rw [List.nodup_cons] at hn
      rw [List.countP_cons]
      by_cases ha : a = h
      · subst ha
        have hz : l.countP (fun x => x == a) = 0 := by
          rw [List.countP_eq_zero]
          intro x hx
          simp only [beq_iff_eq]
          intro hxa
          exact hn.1 (hxa ▸ hx)
        simp [hz]
      · simpa [ha] using ih hn.2

/-- A value absent from a list is counted zero times. -/
theorem countP_eq_zero_of_not_mem (l : List Nat) (h : Nat) (hmem : h ∉ l) :
    l.countP (fun x => x == h) = 0 := by
  rw [List.countP_eq_zero]
  intro x hx
  simp only [beq_iff_eq]
  rintro rfl
  exact hmem hx

/-- A duplicate-free list holds a member exactly once. -/
theorem nodup_countP_eq_one (l : List Nat) (hn : l.Nodup) (h : Nat)
    (hmem : h ∈ l) : l.countP (fun x => x == h) = 1 := by
  induction l with
  | nil => cases hmem
  | cons a l ih =>
      rw [List.nodup_cons] at hn
      rw [List.countP_cons]
      rcases List.mem_cons.mp hmem with rfl | hml
      · have hz : l.countP (fun x => x == h) = 0 :=
          countP_eq_zero_of_not_mem l h hn.1
        simp [hz]
      · have ha : a ≠ h := fun hc => hn.1 (hc ▸ hml)
        simpa [ha] using ih hn.2 hml

/-- The fingerprints a successful commit cycle appends never repeat and avoid
every fingerprint already stored. -/
theorem toInsert_hashes_nodup (db : Db) (reg : List Handle)
    (hreg : (regHashes reg).Nodup) :
    ((reg.filter (fun t => !(db.torrents.any (fun r => r.hash == t.hash)))).map
        (fun t => t.hash)).Nodup := by
  have hs2 : List.Sublist ((reg.filter
      (fun t => !(db.torrents.any (fun r => r.hash == t.hash)))).map
        (fun t => t.hash)) (regHashes reg) := by
    simp only [regHashes]
    exact (List.filter_sublist _).map _
  exact hs2.nodup hreg

/-- C2: across any sequence of "added" notifications and commit cycles
(duplicate "added" notifications included), the store never holds more than
one row per fingerprint, and an existence lookup by fingerprint returns a
surrogate key exactly when a row with that fingerprint was inserted. -/
theorem fingerprint_inserted_at_most_once (events : List Event) (h : Nat) :
    (run events).db.torrents.countP (fun r => r.hash == h) ≤ 1 ∧
    ((run events).db.findIdByHash h).isSome =
      (run events).db.torrents.any (fun r => r.hash == h) := by
  refine ⟨?_, ?_⟩
  · have hinv := (run_Inv events).1
    have hmap : (run events).db.torrents.countP (fun r => r.hash == h)
        = (dbHashes (run events).db).countP (fun x => x == h) := by
      rw [dbHashes, List.countP_map]
      rfl
    rw [hmap]
    exact nodup_countP_le_one _ hinv h
  · rw [Db.findIdByHash, ← find_isSome_eq_any]
    cases (run events).db.torrents.find? (fun r => r.hash == h) <;> rfl

/-- C7: a commit attempt against an unavailable store changes nothing — every
pending fingerprint stays in the registry, the store untouched — and once the
store is available a commit attempt persists each pending fingerprint in
exactly one row (no duplicate on retry) and drains the registry. -/
theorem commit_failure_aborts_and_retries (events : List Event) (h : Nat)
    (hpend : h ∈ regHashes (run events).registry) :
    step (run events) (Event.commit false) = run events ∧
    (step (run events) (Event.commit true)).db.torrents.countP
        (fun r => r.hash == h) = 1 ∧
    (step (run events) (Event.commit true)).registry = [] := by
  refine ⟨rfl, ?_, rfl⟩
  have hinv := run_Inv events
  simp only [step]
  have hmap : (commitCycle (run events).db (run events).registry).torrents.countP
      (fun r => r.hash == h)
      = (dbHashes (commitCycle (run events).db (run events).registry)).countP
        (fun x => x == h) := by
    rw [dbHashes, List.countP_map]
    rfl
  rw [hmap, commitCycle_hashes, List.countP_append]
  by_cases hdb : h ∈ dbHashes (run events).db
  · have h1 : (dbHashes (run events).db).countP (fun x => x == h) = 1 :=
      nodup_countP_eq_one _ hinv.1 h hdb
    have h0 : (((run events).registry.filter (fun t =>
        !((run events).db.torrents.any (fun r => r.hash == t.hash)))).map
          (fun t => t.hash)).countP (fun x => x == h) = 0 := by
      apply countP_eq_zero_of_not_mem
      intro hx
      simp only [List.mem_map, List.mem_filter] at hx
      obtain ⟨t, ⟨_, ht⟩, rfl⟩ := hx
      rw [Bool.not_eq_true', List.any_eq_false] at ht
      simp only [dbHashes, List.mem_map] at hdb
      obtain ⟨r, hr, hrx⟩ := hdb
      exact absurd hrx (by simpa using ht r hr)
    omega
  · have h1 : (dbHashes (run events).db).countP (fun x => x == h) = 0 :=
      countP_eq_zero_of_not_mem _ h hdb
    have hmem2 : h ∈ ((run events).registry.filter (fun t =>
        !((run events).db.torrents.any (fun r => r.hash == t.hash)))).map
          (fun t => t.hash) := by
      simp only [regHashes, List.mem_map] at hpend
      obtain ⟨t, htmem, rfl⟩ := hpend
      refine List.mem_map.mpr ⟨t, ?_, rfl⟩
      rw [List.mem_filter]
      refine ⟨htmem, ?_⟩
      rw [Bool.not_eq_true', List.any_eq_false]
      intro r hr
      intro hc
      exact hdb (by
        simp only [dbHashes, List.mem_map]
        exact ⟨r, hr, eq_of_beq hc⟩)
    have h2 := nodup_countP_eq_one _
      (toInsert_hashes_nodup (run events).db (run events).registry hinv.2) h hmem2
    omega

/-- Witness for C7: one torrent added, the store down for one commit attempt,
then up for the next. -/
theorem commit_failure_aborts_and_retries_witness :
    7 ∈ regHashes (run [Event.added
        ⟨7, TorrentStatus.Downloading, "n", "/p", 0, 0, 0, 0, []⟩]).registry ∧
    (step (run [Event.added
        ⟨7, TorrentStatus.Downloading, "n", "/p", 0, 0, 0, 0, []⟩])
      (Event.commit true)).db.torrents.countP (fun r => r.hash == 7) = 1 :=
  ⟨by decide,
   (commit_failure_aborts_and_retries
     [Event.added ⟨7, TorrentStatus.Downloading, "n", "/p", 0, 0, 0, 0, []⟩]
     7 (by decide)).2.1⟩

/-- From each reachable latched-flag state the probe trace equals the edge
detector run from the matching previous effective state. -/
theorem pingTrace_eq_edgeEvents (rs : List Bool) :
    pingTrace ⟨false, false⟩ rs = edgeEvents true rs ∧
    pingTrace ⟨false, true⟩ rs = edgeEvents true rs ∧
    pingTrace ⟨true, false⟩ rs = edgeEvents false rs := by
  induction rs with
  | nil => exact ⟨rfl, rfl, rfl⟩
  | cons ok rest ih =>
      cases ok <;>
        refine ⟨?_, ?_, ?_⟩ <;>
          simp [pingTrace, pingDatabase, edgeEvents, eventOf, ih.1, ih.2.1, ih.2.2]

/-- Distinct probe results yield distinct transition events. -/
theorem eventOf_ne (a b : Bool) (hab : a ≠ b) : eventOf a ≠ eventOf b := by
  cases a <;> cases b <;> simp [eventOf] at *

/-- The edge detector's output alternates and never starts by repeating the
previous effective state's event. -/
theorem edgeEvents_chain (rs : List Bool) : ∀ prev : Bool,
    List.Chain' (fun a b => a ≠ b) (edgeEvents prev rs) ∧
    (∀ e ∈ (edgeEvents prev rs).head?, e ≠ eventOf prev) := by
  induction rs with
  | nil => intro prev; exact ⟨List.chain'_nil, by simp [edgeEvents]⟩
  | cons r rest ih =>
      intro prev
      by_cases hr : r = prev
      · rw [edgeEvents, if_pos hr, List.nil_append, hr]
        exact ih prev
      · rw [edgeEvents, if_neg hr, List.singleton_append]
        refine ⟨?_, ?_⟩
        · rw [List.chain'_cons']
          exact ⟨fun b hb => ((ih r).2 b hb).symm, (ih r).1⟩
        · intro e he
          simp only [List.head?_cons, Option.mem_def, Option.some.injEq] at he
          subst he
          exact eventOf_ne r prev hr

/-- C3: over any sequence of store connectivity probes the emitted trace
equals the edge detector's output — an event exactly at each connectivity
transition, none while the state is stable — and consecutive emitted events
always differ, so neither transition is ever emitted twice without the
opposite transition in between. -/
theorem health_monitor_emits_once_per_transition (rs : List Bool) :
    pingTrace initFlags rs = edgeEvents true rs ∧
    List.Chain' (fun a b => a ≠ b) (pingTrace initFlags rs) := by
  have he : pingTrace initFlags rs = edgeEvents true rs := by
    show pingTrace ⟨false, false⟩ rs = edgeEvents true rs
    exact (pingTrace_eq_edgeEvents rs).1
  refine ⟨he, ?_⟩
  rw [he]
  exact (edgeEvents_chain rs true).1

end Export
